import Mathlib

/-!
Verification of the market-making engine: orderbook delta reconciliation
(`AftermathOrderbookSubscription`), the fair-price EMA calculator
(`FairPriceCalculator`), the quote generator (`Quoter`), and configuration
validation (`validateConfig`). Numbers are modelled as rationals; the
JavaScript array operations used by the reconciler (findIndex, splice,
indexed assignment) are modelled on `List`.
-/

namespace ElPerronson

/-- JS `Array.prototype.findIndex`: index of the first element satisfying
the predicate, `none` when there is none. -/
def findIndex {α : Type _} (p : α → Bool) : List α → Option ℕ
  | [] => none
  | x :: xs => if p x then some 0 else (findIndex p xs).map (· + 1)

/-- JS `arr.splice(i, 1)`: remove the element at index `i`. -/
def removeIdx {α : Type _} : List α → ℕ → List α
  | [], _ => []
  | _ :: xs, 0 => xs
  | x :: xs, n + 1 => x :: removeIdx xs n

/-- JS `arr[i] = a`: replace the element at index `i`. -/
def setIdx {α : Type _} : List α → ℕ → α → List α
  | [], _, _ => []
  | _ :: xs, 0, a => a :: xs
  | x :: xs, n + 1, a => x :: setIdx xs n a

/-- JS `arr.splice(i, 0, a)`: insert `a` at index `i` (append when the
index is beyond the end). -/
def insertIdx {α : Type _} : List α → ℕ → α → List α
  | xs, 0, a => a :: xs
  | [], _ + 1, a => [a]
  | x :: xs, n + 1, a => x :: insertIdx xs n a

/-- A price level as stored by the reconciler: `[price, amount]`. -/
abbrev PriceLevel := ℚ × ℚ

/-- `AftermathOrderbookSubscription.applyPriceLevelDelta`: find the level at
exactly `price`; when present add `amountDelta` to its amount, removing the
level when the result is `≤ 0`; otherwise, when `amountDelta > 0`, insert a
new level before the first level that compares past `price` for the side
(`<` for bids, `>` for asks), or push it at the end. -/
def applyPriceLevelDelta (levels : List PriceLevel) (price amountDelta : ℚ)
    (isBid : Bool) : List PriceLevel :=
  match findIndex (fun l => decide (l.1 = price)) levels with
  | some existingIndex =>
    match levels.get? existingIndex with
    | some lv =>
      let newAmount := lv.2 + amountDelta
      if newAmount ≤ 0 then removeIdx levels existingIndex
      else setIdx levels existingIndex (lv.1, newAmount)
    | none => levels
  | none =>
    if 0 < amountDelta then
      match findIndex (fun l => if isBid then decide (l.1 < price)
                                else decide (price < l.1)) levels with
      | some insertIndex => insertIdx levels insertIndex (price, amountDelta)
      | none => levels ++ [(price, amountDelta)]
    else levels

/-- The local `Orderbook` held per market by the subscription. -/
structure Orderbook where
  symbol : String
  bids : List PriceLevel
  asks : List PriceLevel
  timestamp : ℚ
  nonce : Option ℚ

/-- An `AftermathOrderbookDelta` received over the SSE stream. -/
structure OrderbookDelta where
  bids : List (ℚ × ℚ)
  asks : List (ℚ × ℚ)
  timestamp : ℚ
  nonce : ℚ

/-- The mutation part of `applyDelta`, run once the nonce guard has passed:
fold every bid and ask pair into the level arrays and install the delta's
timestamp and nonce. -/
def applyDeltaUnchecked (book : Orderbook) (delta : OrderbookDelta) : Orderbook :=
  { symbol := book.symbol
    bids := delta.bids.foldl
      (fun levels pd => applyPriceLevelDelta levels pd.1 pd.2 true) book.bids
    asks := delta.asks.foldl
      (fun levels pd => applyPriceLevelDelta levels pd.1 pd.2 false) book.asks
    timestamp := delta.timestamp
    nonce := some delta.nonce }

/-- `AftermathOrderbookSubscription.applyDelta`: skip the delta when the book
already holds a nonce and the delta's nonce is not beyond it, otherwise apply
all level changes. -/
def applyDelta (book : Orderbook) (delta : OrderbookDelta) : Orderbook :=
  match book.nonce with
  | some lastNonce =>
    if delta.nonce ≤ lastNonce then book else applyDeltaUnchecked book delta
  | none => applyDeltaUnchecked book delta

/-- Amount stored at the first level with exactly the given price, when any. -/
def lookupLevel (levels : List PriceLevel) (price : ℚ) : Option ℚ :=
  match findIndex (fun l => decide (l.1 = price)) levels with
  | some i => (levels.get? i).map Prod.snd
  | none => none

/-- Order maintained inside one side of the book: strictly descending prices
for bids, strictly ascending prices for asks. -/
def sideRel (isBid : Bool) (a b : ℚ) : Prop := if isBid then b < a else a < b

/-- One side of the book is sorted for its direction. -/
def sortedSide (isBid : Bool) (levels : List PriceLevel) : Prop :=
  (levels.map Prod.fst).Pairwise (sideRel isBid)

/-- The book invariant: bids strictly descending, asks strictly ascending. -/
def bookInvariant (book : Orderbook) : Prop :=
  sortedSide true book.bids ∧ sortedSide false book.asks

/-- Constructor options of `FairPriceCalculator` (fields that affect the
EMA and the readiness gate). -/
structure FairPriceConfig where
  windowMs : Option ℚ := none
  alpha : Option ℚ := none
  minPrices : Option ℕ := none
  warmupMs : Option ℚ := none

/-- JS `value || dflt` on an optional numeric option: the default is used
when the option is absent or zero. -/
def orDefault (value : Option ℚ) (dflt : ℚ) : ℚ :=
  match value with
  | none => dflt
  | some x => if x = 0 then dflt else x

/-- JS `value || dflt` on an optional count option. -/
def orDefaultNat (value : Option ℕ) (dflt : ℕ) : ℕ :=
  match value with
  | none => dflt
  | some 0 => dflt
  | some (n + 1) => n + 1

/-- Mutable state of a `FairPriceCalculator` instance. -/
structure FairPriceState where
  ema : Option ℚ
  alpha : ℚ
  priceCount : ℕ
  minPrices : ℕ
  warmupMs : ℚ
  startTime : ℚ
  lastUpdateTime : Option ℚ

/-- The `FairPriceCalculator` constructor: `alpha` defaults to
`2 / (windowMs / 1000 + 1)`, `minPrices` to 10, `warmupMs` to 10000, and
`startTime` records the construction clock. -/
def mkFairPriceCalculator (config : FairPriceConfig) (now : ℚ) : FairPriceState :=
  let windowMs := orDefault config.windowMs (5 * 60 * 1000)
  let estimatedPeriods := windowMs / 1000
  { ema := none
    alpha := orDefault config.alpha (2 / (estimatedPeriods + 1))
    priceCount := 0
    minPrices := orDefaultNat config.minPrices 10
    warmupMs := orDefault config.warmupMs (10 * 1000)
    startTime := now
    lastUpdateTime := none }

/-- `FairPriceCalculator.updateEMA`: the first price initializes the EMA
directly, later prices blend with factor `alpha`; the tick counter and the
last-update time advance. -/
def updateEMA (s : FairPriceState) (price timestamp : ℚ) : FairPriceState :=
  { s with
    ema := some (match s.ema with
      | none => price
      | some e => s.alpha * price + (1 - s.alpha) * e)
    priceCount := s.priceCount + 1
    lastUpdateTime := some timestamp }

/-- Deliver a sequence of `(price, timestamp)` ticks to the calculator. -/
def feedTicks (s : FairPriceState) (ticks : List (ℚ × ℚ)) : FairPriceState :=
  ticks.foldl (fun st pt => updateEMA st pt.1 pt.2) s

/-- `FairPriceCalculator.isWarmedUp` at clock `now`. -/
def isWarmedUp (s : FairPriceState) (now : ℚ) : Bool :=
  decide (s.warmupMs ≤ now - s.startTime) && decide (s.minPrices ≤ s.priceCount)

/-- `FairPriceCalculator.isReady` at clock `now`. -/
def isReady (s : FairPriceState) (now : ℚ) : Bool :=
  s.ema.isSome && isWarmedUp s now

/-- `FairPriceCalculator.getFairPrice` at clock `now`. -/
def getFairPrice (s : FairPriceState) (now : ℚ) : Option ℚ :=
  if isReady s now then s.ema else none

/-- `MarketMakerConfig` from `src/bots/mm/config.ts`. -/
structure MarketMakerConfig where
  exchange : String
  symbol : String
  priceSource : String
  spreadBps : ℚ
  takeProfitBps : ℚ
  orderSizeUsd : ℚ
  closeThresholdUsd : ℚ
  maxPositionUsd : ℚ
  warmupSeconds : ℚ
  updateThrottleMs : ℚ
  orderSyncIntervalMs : ℚ
  fairPriceWindowMs : ℚ
  minMarginRatio : ℚ

/-- The slice of venue market metadata the quoter consumes. -/
structure Market where
  symbol : String := ""
  tickSize : ℚ := 0
  sizePrecision : ℕ := 0

/-- Quote produced by `Quoter.generateQuotes`. -/
structure Quote where
  bidPrice : ℚ
  askPrice : ℚ
  bidSize : ℚ
  askSize : ℚ
  fairPrice : ℚ
  spreadBps : ℚ
  isCloseMode : Bool

/-- Rounding direction of `Quoter.roundToTick`. -/
inductive TickDirection where
  | up
  | down
deriving DecidableEq

/-- Tick size chosen by `Quoter.roundToTick` from the configured symbol. -/
def tickSizeFor (symbol : String) : ℚ :=
  if symbol = "BTC" ∨ symbol = "ETH" then 1 / 10
  else if symbol = "HYPE" then 1 / 100
  else 1 / 100000

/-- `Quoter.roundToTick`: bids round down to the tick grid, asks round up. -/
def roundToTick (config : MarketMakerConfig) (price : ℚ)
    (direction : TickDirection) : ℚ :=
  let tickSize := tickSizeFor config.symbol
  match direction with
  | TickDirection.down => (⌊price / tickSize⌋ : ℚ) * tickSize
  | TickDirection.up => (⌈price / tickSize⌉ : ℚ) * tickSize

/-- `Quoter.roundSize`: floor the size at the market's size precision; the
size passes through unchanged when no market is set. -/
def roundSize (market : Option Market) (size : ℚ) : ℚ :=
  match market with
  | none => size
  | some m => (⌊size * 10 ^ m.sizePrecision⌋ : ℚ) / 10 ^ m.sizePrecision

/-- `Quoter.generateQuotes`: symmetric quotes around the fair price, a
tighter spread and one zeroed side in close mode, tick rounding of prices
and floor rounding of sizes when a market is set. -/
def generateQuotes (config : MarketMakerConfig) (market : Option Market)
    (fairPrice positionNotional : ℚ) : Quote :=
  let isCloseMode : Bool := decide (|positionNotional| > config.closeThresholdUsd)
  let spreadBps := if isCloseMode then config.takeProfitBps else config.spreadBps
  let spreadMultiplier := spreadBps / 10000
  let bidPrice0 := fairPrice * (1 - spreadMultiplier)
  let askPrice0 := fairPrice * (1 + spreadMultiplier)
  let bidPrice := if market.isSome then roundToTick config bidPrice0 TickDirection.down
                  else bidPrice0
  let askPrice := if market.isSome then roundToTick config askPrice0 TickDirection.up
                  else askPrice0
  let baseSize := config.orderSizeUsd / fairPrice
  let bidSize0 := if isCloseMode then (if positionNotional > 0 then 0 else baseSize)
                  else baseSize
  let askSize0 := if isCloseMode then (if positionNotional > 0 then baseSize else 0)
                  else baseSize
  let bidSize := if market.isSome then roundSize market bidSize0 else bidSize0
  let askSize := if market.isSome then roundSize market askSize0 else askSize0
  { bidPrice := bidPrice
    askPrice := askPrice
    bidSize := bidSize
    askSize := askSize
    fairPrice := fairPrice
    spreadBps := spreadBps
    isCloseMode := isCloseMode }

/-- Order side. -/
inductive Side where
  | buy
  | sell
deriving DecidableEq

/-- An `OrderRequest` emitted by `Quoter.quoteToOrders`. -/
structure OrderRequest where
  symbol : String
  side : Side
  type : String
  price : ℚ
  size : ℚ
  postOnly : Bool
  reduceOnly : Bool

/-- `Quoter.quoteToOrders`: a post-only, never reduce-only limit order per
side with a positive quoted size. -/
def quoteToOrders (config : MarketMakerConfig) (market : Option Market)
    (quote : Quote) : List OrderRequest :=
  (if quote.bidSize > 0 then
    [{ symbol := config.symbol
       side := Side.buy
       type := "limit"
       price := roundToTick config quote.bidPrice TickDirection.down
       size := roundSize market quote.bidSize
       postOnly := true
       reduceOnly := false }]
  else []) ++
  (if quote.askSize > 0 then
    [{ symbol := config.symbol
       side := Side.sell
       type := "limit"
       price := roundToTick config quote.askPrice TickDirection.up
       size := roundSize market quote.askSize
       postOnly := true
       reduceOnly := false }]
  else [])

/-- `validateConfig`: fail fast on a missing exchange or symbol, a
non-positive spread, order size or close threshold, or a maximum position
not above the close threshold. -/
def validateConfig (config : MarketMakerConfig) : Except String Unit :=
  if config.exchange = "" then Except.error ("Exchange is required")
  else if config.symbol = "" then Except.error ("Symbol is required")
  else if config.spreadBps ≤ 0 then Except.error ("spreadBps must be positive")
  else if config.orderSizeUsd ≤ 0 then Except.error ("orderSizeUsd must be positive")
  else if config.closeThresholdUsd ≤ 0 then
    Except.error ("closeThresholdUsd must be positive")
  else if config.maxPositionUsd ≤ config.closeThresholdUsd then
    Except.error ("maxPositionUsd must be greater than closeThresholdUsd")
  else Except.ok ()

/-- A configuration matching the documented defaults, used to instantiate
the theorems on concrete inputs. -/
def sampleConfig : MarketMakerConfig :=
  { exchange := "hyperliquid"
    symbol := "BTC"
    priceSource := "binance"
    spreadBps := 10
    takeProfitBps := 5
    orderSizeUsd := 100
    closeThresholdUsd := 500
    maxPositionUsd := 2000
    warmupSeconds := 10
    updateThrottleMs := 100
    orderSyncIntervalMs := 3000
    fairPriceWindowMs := 300000
    minMarginRatio := 1 / 10 }

/-- A market with two decimals of size precision, as used for instantiation. -/
def sampleMarket : Market :=
  { symbol := "BTC", tickSize := 1 / 10, sizePrecision := 2 }

/-- A fair-price configuration leaving every option at its default. -/
def defaultFairConfig : FairPriceConfig := {}

/-- A fair-price configuration with an explicit five-second window. -/
def windowFairConfig : FairPriceConfig := { windowMs := some 5000 }

/-- A close-mode quote with one zeroed side, as used for instantiation. -/
def sampleQuote : Quote :=
  { bidPrice := 49950, askPrice := 50050, bidSize := 3, askSize := 0,
    fairPrice := 50000, spreadBps := 5, isCloseMode := true }

/-- Ten concrete ticks, used to instantiate the readiness theorem. -/
def sampleTicks : List (ℚ × ℚ) :=
  [(1, 1), (1, 2), (1, 3), (1, 4), (1, 5), (1, 6), (1, 7), (1, 8), (1, 9),
    (1, 10)]

theorem findIndex_none {α : Type _} {p : α → Bool} {l : List α}
    (h : findIndex p l = none) : ∀ x ∈ l, p x = false := by
  induction l with
  | nil => intro x hx; cases hx
  | cons x xs ih =>
    intro y hy
    by_cases hx : p x
    · simp [findIndex, hx] at h
    · simp only [findIndex, hx, if_false, Bool.false_eq_true, if_neg,
        Option.map_eq_none'] at h
      rcases List.mem_cons.1 hy with rfl | hy
      · exact Bool.eq_false_iff.2 hx
      · exact ih h y hy

theorem findIndex_some {α : Type _} {p : α → Bool} {l : List α} {i : ℕ}
    (h : findIndex p l = some i) :
    ∃ l1 x l2, l = l1 ++ x :: l2 ∧ l1.length = i ∧ p x = true ∧
      ∀ y ∈ l1, p y = false := by
  induction l generalizing i with
  | nil => simp [findIndex] at h
  | cons x xs ih =>
    by_cases hx : p x
    · simp only [findIndex, hx, if_true] at h
      obtain rfl : (0 : ℕ) = i := Option.some.inj h
      exact ⟨[], x, xs, rfl, rfl, hx, by intro y hy; cases hy⟩
    · simp only [findIndex, hx, if_false, Bool.false_eq_true, if_neg,
        Option.map_eq_some'] at h
      obtain ⟨j, hj, rfl⟩ := h
      obtain ⟨l1, y, l2, rfl, hlen, hpy, hall⟩ := ih hj
      refine ⟨x :: l1, y, l2, rfl, by simp [hlen], hpy, ?_⟩
      intro z hz
      rcases List.mem_cons.1 hz with rfl | hz
      · exact Bool.eq_false_iff.2 hx
      · exact hall z hz

theorem removeIdx_append {α : Type _} (l1 : List α) (x : α) (l2 : List α) :
    removeIdx (l1 ++ x :: l2) l1.length = l1 ++ l2 := by
  induction l1 with
  | nil => rfl
  | cons y ys ih => simpa [removeIdx] using ih

theorem setIdx_append {α : Type _} (l1 : List α) (x : α) (l2 : List α) (a : α) :
    setIdx (l1 ++ x :: l2) l1.length a = l1 ++ a :: l2 := by
  induction l1 with
  | nil => rfl
  | cons y ys ih => simpa [setIdx] using ih

theorem insertIdx_append {α : Type _} (l1 : List α) (x : α) (l2 : List α) (a : α) :
    insertIdx (l1 ++ x :: l2) l1.length a = l1 ++ a :: x :: l2 := by
  induction l1 with
  | nil => rfl
  | cons y ys ih => simpa [insertIdx] using ih

theorem get_append_len {α : Type _} (l1 : List α) (x : α) (l2 : List α) :
    (l1 ++ x :: l2).get? l1.length = some x := by
  induction l1 with
  | nil => rfl
  | cons y ys ih => simpa using ih

theorem insertIdx_perm {α : Type _} (l : List α) (j : ℕ) (a : α) :
    List.Perm (insertIdx l j a) (a :: l) := by
  induction l generalizing j with
  | nil => cases j <;> exact List.Perm.refl _
  | cons x xs ih =>
    cases j with
    | zero => exact List.Perm.refl _
    | succ n => exact (List.Perm.cons x (ih n)).trans (List.Perm.swap a x xs)

theorem sideRel_trans (isBid : Bool) {a b c : ℚ}
    (hab : sideRel isBid a b) (hbc : sideRel isBid b c) : sideRel isBid a c := by
  cases isBid <;> simp [sideRel] at * <;> linarith

theorem sideRel_conn (isBid : Bool) {a b : ℚ}
    (h : ¬ sideRel isBid a b) (hne : a ≠ b) : sideRel isBid b a := by
  cases isBid <;> simp [sideRel] at h ⊢
  · exact lt_of_le_of_ne h (Ne.symm hne)
  · exact lt_of_le_of_ne h hne

theorem pairwise_insert_middle (r : ℚ → ℚ → Prop)
    (htr : ∀ {a b c : ℚ}, r a b → r b c → r a c)
    (P1 : List ℚ) (x : ℚ) (P2 : List ℚ) (price : ℚ)
    (hp : (P1 ++ x :: P2).Pairwise r) (h1 : ∀ y ∈ P1, r y price) (hx : r price x) :
    (P1 ++ price :: x :: P2).Pairwise r := by
  rw [List.pairwise_append] at hp ⊢
  obtain ⟨h11, h22, h12⟩ := hp
  refine ⟨h11, ?_, ?_⟩
  · rw [List.pairwise_cons]
    refine ⟨?_, h22⟩
    intro b hb
    rcases List.mem_cons.1 hb with rfl | hb
    · exact hx
    · exact htr hx ((List.pairwise_cons.1 h22).1 b hb)
  · intro a ha b hb
    rcases List.mem_cons.1 hb with rfl | hb
    · exact h1 a ha
    · exact h12 a ha b hb

theorem pairwise_append_last (r : ℚ → ℚ → Prop) (P : List ℚ) (price : ℚ)
    (hp : P.Pairwise r) (h : ∀ y ∈ P, r y price) :
    (P ++ [price]).Pairwise r := by
  rw [List.pairwise_append]
  refine ⟨hp, List.pairwise_singleton _ _, ?_⟩
  intro a ha b hb
  rcases List.mem_singleton.1 hb with rfl
  exact h a ha

theorem applyPriceLevelDelta_sorted (levels : List PriceLevel)
    (price amountDelta : ℚ) (isBid : Bool) (hs : sortedSide isBid levels) :
    sortedSide isBid (applyPriceLevelDelta levels price amountDelta isBid) := by
  unfold applyPriceLevelDelta
  cases hfi : findIndex (fun l => decide (l.1 = price)) levels with
  | some i =>
    obtain ⟨l1, lv, l2, rfl, hlen, _, _⟩ := findIndex_some hfi
    subst hlen
    dsimp only
    rw [get_append_len]
    dsimp only
    by_cases hneg : lv.2 + amountDelta ≤ 0
    · rw [if_pos hneg, removeIdx_append]
      unfold sortedSide at hs ⊢
      refine hs.sublist ?_
      simp only [List.map_append, List.map_cons]
      exact (List.sublist_cons_self _ _).append_left _
    · rw [if_neg hneg, setIdx_append]
      unfold sortedSide at hs ⊢
      simpa only [List.map_append, List.map_cons] using hs
  | none =>
    have hnomem : ∀ y ∈ levels, y.1 ≠ price := by
      intro y hy
      have := findIndex_none hfi y hy
      simpa using this
    dsimp only
    by_cases hd : 0 < amountDelta
    · rw [if_pos hd]
      cases hfj : findIndex (fun l => if isBid then decide (l.1 < price)
          else decide (price < l.1)) levels with
      | some j =>
        obtain ⟨l1, lv, l2, rfl, hlen, hpj, hallj⟩ := findIndex_some hfj
        subst hlen
        dsimp only
        rw [insertIdx_append]
        unfold sortedSide at hs ⊢
        simp only [List.map_append, List.map_cons] at hs ⊢
        have hx : sideRel isBid price lv.1 := by
          cases isBid <;> simpa [sideRel] using hpj
        have h1 : ∀ y ∈ l1.map Prod.fst, sideRel isBid y price := by
          intro y hy
          obtain ⟨lv1, hlv1, rfl⟩ := List.mem_map.1 hy
          have hnp : ¬ sideRel isBid price lv1.1 := by
            have := hallj lv1 hlv1
            cases isBid <;> simpa [sideRel] using this
          exact sideRel_conn isBid hnp
            (fun hh => hnomem lv1 (by simp [hlv1]) hh.symm)
        exact pairwise_insert_middle (sideRel isBid)
          (fun hab hbc => sideRel_trans isBid hab hbc)
          (l1.map Prod.fst) lv.1 (l2.map Prod.fst) price hs h1 hx
      | none =>
        dsimp only
        unfold sortedSide at hs ⊢
        simp only [List.map_append, List.map_cons, List.map_nil]
        refine pairwise_append_last (sideRel isBid) _ _ hs ?_
        intro y hy
        obtain ⟨lv1, hlv1, rfl⟩ := List.mem_map.1 hy
        have hnp : ¬ sideRel isBid price lv1.1 := by
          have := findIndex_none hfj lv1 hlv1
          cases isBid <;> simpa [sideRel] using this
        exact sideRel_conn isBid hnp (fun hh => hnomem lv1 hlv1 hh.symm)
    · rw [if_neg hd]
      exact hs

theorem foldl_applyPriceLevelDelta_sorted (isBid : Bool) (pairs : List (ℚ × ℚ))
    (levels : List PriceLevel) (hs : sortedSide isBid levels) :
    sortedSide isBid (pairs.foldl
      (fun ls pd => applyPriceLevelDelta ls pd.1 pd.2 isBid) levels) := by
  induction pairs generalizing levels with
  | nil => exact hs
  | cons pd rest ih =>
    exact ih _ (applyPriceLevelDelta_sorted _ _ _ _ hs)

theorem applyDelta_invariant (book : Orderbook) (delta : OrderbookDelta)
    (h : bookInvariant book) : bookInvariant (applyDelta book delta) := by
  unfold applyDelta
  cases book.nonce with
  | none =>
    exact ⟨foldl_applyPriceLevelDelta_sorted true _ _ h.1,
      foldl_applyPriceLevelDelta_sorted false _ _ h.2⟩
  | some lastNonce =>
    dsimp only
    by_cases hle : delta.nonce ≤ lastNonce
    · rw [if_pos hle]; exact h
    · rw [if_neg hle]
      exact ⟨foldl_applyPriceLevelDelta_sorted true _ _ h.1,
        foldl_applyPriceLevelDelta_sorted false _ _ h.2⟩

theorem foldl_applyDelta_invariant (snapshot : Orderbook)
    (deltas : List OrderbookDelta) (h : bookInvariant snapshot) :
    bookInvariant (deltas.foldl applyDelta snapshot) := by
  induction deltas generalizing snapshot with
  | nil => exact h
  | cons d rest ih => exact ih _ (applyDelta_invariant _ _ h)

theorem feedTicks_alpha (s : FairPriceState) (ticks : List (ℚ × ℚ)) :
    (feedTicks s ticks).alpha = s.alpha := by
  induction ticks generalizing s with
  | nil => rfl
  | cons t ts ih => simpa [feedTicks, updateEMA] using ih _

theorem feedTicks_minPrices (s : FairPriceState) (ticks : List (ℚ × ℚ)) :
    (feedTicks s ticks).minPrices = s.minPrices := by
  induction ticks generalizing s with
  | nil => rfl
  | cons t ts ih => simpa [feedTicks, updateEMA] using ih _

theorem feedTicks_warmupMs (s : FairPriceState) (ticks : List (ℚ × ℚ)) :
    (feedTicks s ticks).warmupMs = s.warmupMs := by
  induction ticks generalizing s with
  | nil => rfl
  | cons t ts ih => simpa [feedTicks, updateEMA] using ih _

theorem feedTicks_startTime (s : FairPriceState) (ticks : List (ℚ × ℚ)) :
    (feedTicks s ticks).startTime = s.startTime := by
  induction ticks generalizing s with
  | nil => rfl
  | cons t ts ih => simpa [feedTicks, updateEMA] using ih _

theorem feedTicks_priceCount (s : FairPriceState) (ticks : List (ℚ × ℚ)) :
    (feedTicks s ticks).priceCount = s.priceCount + ticks.length := by
  induction ticks generalizing s with
  | nil => rfl
  | cons t ts ih =>
    simp only [feedTicks, List.foldl_cons, List.length_cons]
    rw [show List.foldl (fun st pt => updateEMA st pt.1 pt.2)
        (updateEMA s t.1 t.2) ts = feedTicks (updateEMA s t.1 t.2) ts from rfl,
      ih]
    simp [updateEMA]
    ring

theorem feedTicks_ema_isSome (s : FairPriceState) (ticks : List (ℚ × ℚ))
    (h : s.ema.isSome = true ∨ ticks ≠ []) :
    (feedTicks s ticks).ema.isSome = true := by
  induction ticks generalizing s with
  | nil =>
    rcases h with h | h
    · exact h
    · exact absurd rfl h
  | cons t ts ih =>
    refine ih (updateEMA s t.1 t.2) (Or.inl ?_)
    simp [updateEMA]

theorem feedTicks_ema_stable (s : FairPriceState) (ticks : List (ℚ × ℚ))
    (h : s.ema.isSome = true) : (feedTicks s ticks).ema.isSome = true :=
  feedTicks_ema_isSome s ticks (Or.inl h)

theorem mk_minPrices_pos (config : FairPriceConfig) (now : ℚ) :
    1 ≤ (mkFairPriceCalculator config now).minPrices := by
  show 1 ≤ orDefaultNat config.minPrices 10
  unfold orDefaultNat
  rcases config.minPrices with _ | (_ | n) <;> simp

theorem sideRel_ne (isBid : Bool) {a b : ℚ} (h : sideRel isBid a b) : a ≠ b := by
  cases isBid <;> simp [sideRel] at h
  · exact ne_of_lt h
  · exact ne_of_gt h

/-- Claim C1: a delta whose nonce is at most the book's current nonce leaves
the book completely unchanged, and applying the same delta twice yields the
same book as applying it once. -/
theorem applyDelta_stale_noop (book : Orderbook) (delta : OrderbookDelta) :
    (∀ n : ℚ, book.nonce = some n → delta.nonce ≤ n →
      applyDelta book delta = book) ∧
    applyDelta (applyDelta book delta) delta = applyDelta book delta := by
  have happ : ∀ b : Orderbook, b.nonce = some delta.nonce →
      applyDelta b delta = b := by
    intro b hb
    unfold applyDelta
    rw [hb]
    dsimp only
    rw [if_pos (le_refl _)]
  constructor
  · intro n hn hle
    unfold applyDelta
    rw [hn]
    dsimp only
    rw [if_pos hle]
  · rcases hbn : book.nonce with _ | n
    · have h1 : applyDelta book delta = applyDeltaUnchecked book delta := by
        unfold applyDelta; rw [hbn]
      rw [h1]
      exact happ _ rfl
    · by_cases hle : delta.nonce ≤ n
      · have hskip : applyDelta book delta = book := by
          unfold applyDelta; rw [hbn]; dsimp only; rw [if_pos hle]
        rw [hskip, hskip]
      · have hap : applyDelta book delta = applyDeltaUnchecked book delta := by
          unfold applyDelta; rw [hbn]; dsimp only; rw [if_neg hle]
        rw [hap]
        exact happ _ rfl

theorem applyDelta_stale_noop_witness :
    applyDelta
      { symbol := "BTC", bids := [(2, 1)], asks := [(3, 1)], timestamp := 0,
        nonce := some 5 }
      { bids := [(2, 1)], asks := [], timestamp := 9, nonce := 3 } =
      { symbol := "BTC", bids := [(2, 1)], asks := [(3, 1)], timestamp := 0,
        nonce := some 5 } :=
  (applyDelta_stale_noop _ _).1 5 rfl (by norm_num)

/-- Claim C2: on an accepted delta pair, an existing level at exactly the
given price has the delta added to its amount, is removed entirely when the
result is not positive, and is kept with the new amount otherwise; when no
level exists a positive delta inserts the new level keeping the side's sort
order, a non-positive delta changes nothing; and a book side `[[100, 5]]`
receiving the pair `[100, -5]` loses the level at 100 entirely. -/
theorem applyPriceLevelDelta_spec (levels : List PriceLevel)
    (price sizeDelta : ℚ) (isBid : Bool) :
    (∀ a : ℚ, lookupLevel levels price = some a →
      ((a + sizeDelta ≤ 0 → ∃ l1 l2, levels = l1 ++ (price, a) :: l2 ∧
          applyPriceLevelDelta levels price sizeDelta isBid = l1 ++ l2) ∧
       (0 < a + sizeDelta → ∃ l1 l2, levels = l1 ++ (price, a) :: l2 ∧
          applyPriceLevelDelta levels price sizeDelta isBid =
            l1 ++ (price, a + sizeDelta) :: l2))) ∧
    (lookupLevel levels price = none →
      ((0 < sizeDelta →
          List.Perm (applyPriceLevelDelta levels price sizeDelta isBid)
            ((price, sizeDelta) :: levels) ∧
          (sortedSide isBid levels →
            sortedSide isBid (applyPriceLevelDelta levels price sizeDelta isBid))) ∧
       (sizeDelta ≤ 0 →
          applyPriceLevelDelta levels price sizeDelta isBid = levels))) ∧
    applyPriceLevelDelta [((100 : ℚ), (5 : ℚ))] 100 (-5) true = [] := by
  refine ⟨?_, ?_, ?_⟩
  · intro a ha
    unfold lookupLevel at ha
    cases hfi : findIndex (fun l => decide (l.1 = price)) levels with
    | none => rw [hfi] at ha; cases ha
    | some i =>
      rw [hfi] at ha
      dsimp only at ha
      obtain ⟨l1, lv, l2, rfl, hlen, hpv, _⟩ := findIndex_some hfi
      obtain ⟨lp, la⟩ := lv
      have hlp : lp = price := by simpa using hpv
      subst hlp
      subst hlen
      rw [get_append_len] at ha
      simp only [Option.map_some'] at ha
      obtain rfl : la = a := Option.some.inj ha
      constructor
      · intro hneg
        refine ⟨l1, l2, rfl, ?_⟩
        unfold applyPriceLevelDelta
        rw [hfi]
        dsimp only
        rw [get_append_len]
        dsimp only
        rw [if_pos hneg]
        exact removeIdx_append l1 _ l2
      · intro hpos
        refine ⟨l1, l2, rfl, ?_⟩
        unfold applyPriceLevelDelta
        rw [hfi]
        dsimp only
        rw [get_append_len]
        dsimp only
        rw [if_neg (not_le.2 hpos)]
        exact setIdx_append l1 _ l2 _
  · intro hnone
    unfold lookupLevel at hnone
    cases hfi : findIndex (fun l => decide (l.1 = price)) levels with
    | some i =>
      rw [hfi] at hnone
      dsimp only at hnone
      obtain ⟨l1, lv, l2, rfl, hlen, _, _⟩ := findIndex_some hfi
      subst hlen
      rw [get_append_len] at hnone
      simp at hnone
    | none =>
      constructor
      · intro hd
        constructor
        · unfold applyPriceLevelDelta
          rw [hfi]
          dsimp only
          rw [if_pos hd]
          cases hfj : findIndex (fun l => if isBid then decide (l.1 < price)
              else decide (price < l.1)) levels with
          | some j =>
            dsimp only
            exact insertIdx_perm levels j (price, sizeDelta)
          | none =>
            dsimp only
            exact List.perm_append_comm
        · intro hs
          exact applyPriceLevelDelta_sorted levels price sizeDelta isBid hs
      · intro hd
        unfold applyPriceLevelDelta
        rw [hfi]
        dsimp only
        rw [if_neg (not_lt.2 hd)]
  · unfold applyPriceLevelDelta
    norm_num [findIndex, removeIdx]

theorem applyPriceLevelDelta_spec_witness :
    ∃ l1 l2, [((100 : ℚ), (5 : ℚ))] = l1 ++ ((100 : ℚ), (5 : ℚ)) :: l2 ∧
      applyPriceLevelDelta [((100 : ℚ), (5 : ℚ))] 100 (-5) true = l1 ++ l2 :=
  ((applyPriceLevelDelta_spec [((100 : ℚ), (5 : ℚ))] 100 (-5) true).1 5
    (by norm_num [lookupLevel, findIndex])).1 (by norm_num)

/-- Claim C3: from any snapshot whose sides satisfy the book invariant,
applying any sequence of deltas keeps bids strictly descending and asks
strictly ascending in price, so no side ever holds two levels at the same
price. -/
theorem orderbook_invariant (snapshot : Orderbook) (deltas : List OrderbookDelta)
    (hinv : bookInvariant snapshot) :
    bookInvariant (deltas.foldl applyDelta snapshot) ∧
    ((deltas.foldl applyDelta snapshot).bids.map Prod.fst).Nodup ∧
    ((deltas.foldl applyDelta snapshot).asks.map Prod.fst).Nodup := by
  have h := foldl_applyDelta_invariant snapshot deltas hinv
  exact ⟨h, h.1.imp (sideRel_ne true), h.2.imp (sideRel_ne false)⟩

theorem orderbook_invariant_witness :
    bookInvariant
      (([{ bids := [(5, 2), (2, -1)], asks := [(3, -1)], timestamp := 1,
           nonce := 1 }] : List OrderbookDelta).foldl applyDelta
        { symbol := "X", bids := [(2, 1), (1, 1)], asks := [(3, 1), (4, 1)],
          timestamp := 0, nonce := none }) ∧
    ((([{ bids := [(5, 2), (2, -1)], asks := [(3, -1)], timestamp := 1,
           nonce := 1 }] : List OrderbookDelta).foldl applyDelta
        { symbol := "X", bids := [(2, 1), (1, 1)], asks := [(3, 1), (4, 1)],
          timestamp := 0, nonce := none }).bids.map Prod.fst).Nodup ∧
    ((([{ bids := [(5, 2), (2, -1)], asks := [(3, -1)], timestamp := 1,
           nonce := 1 }] : List OrderbookDelta).foldl applyDelta
        { symbol := "X", bids := [(2, 1), (1, 1)], asks := [(3, 1), (4, 1)],
          timestamp := 0, nonce := none }).asks.map Prod.fst).Nodup :=
  orderbook_invariant _ _
    (by constructor <;> norm_num [sortedSide, sideRel, List.pairwise_cons])

/-- Claim C9: when the book holds no nonce, a delta is never rejected for
staleness: whatever its nonce, all its level changes are applied and its
timestamp and nonce are installed on the book. -/
theorem applyDelta_undefined_nonce (book : Orderbook) (delta : OrderbookDelta)
    (h : book.nonce = none) :
    applyDelta book delta = applyDeltaUnchecked book delta ∧
    (applyDelta book delta).nonce = some delta.nonce ∧
    (applyDelta book delta).timestamp = delta.timestamp ∧
    (applyDelta book delta).bids = delta.bids.foldl
      (fun levels pd => applyPriceLevelDelta levels pd.1 pd.2 true) book.bids ∧
    (applyDelta book delta).asks = delta.asks.foldl
      (fun levels pd => applyPriceLevelDelta levels pd.1 pd.2 false) book.asks := by
  have h1 : applyDelta book delta = applyDeltaUnchecked book delta := by
    unfold applyDelta; rw [h]
  refine ⟨h1, ?_, ?_, ?_, ?_⟩ <;> rw [h1] <;> rfl

theorem applyDelta_undefined_nonce_witness :
    (applyDelta
      { symbol := "BTC", bids := [], asks := [], timestamp := 0, nonce := none }
      { bids := [], asks := [], timestamp := 7, nonce := -100 }).nonce =
      some (-100) :=
  (applyDelta_undefined_nonce
    { symbol := "BTC", bids := [], asks := [], timestamp := 0, nonce := none }
    { bids := [], asks := [], timestamp := 7, nonce := -100 } rfl).2.1

/-- Claim C5: for every delivered tick sequence, `getFairPrice` is `none`
exactly until both the elapsed time since construction reaches the warmup
period and the tick count reaches the minimum-sample threshold; once both
conditions hold at some call they keep holding, and `getFairPrice` stays
available at every later call of the instance. -/
theorem getFairPrice_readiness (config : FairPriceConfig) (start now1 now2 : ℚ)
    (ticks more : List (ℚ × ℚ)) (hnow : now1 ≤ now2) :
    (getFairPrice (feedTicks (mkFairPriceCalculator config start) ticks) now1 =
        none ↔
      ¬ ((mkFairPriceCalculator config start).warmupMs ≤ now1 - start ∧
          (mkFairPriceCalculator config start).minPrices ≤ ticks.length)) ∧
    (((mkFairPriceCalculator config start).warmupMs ≤ now1 - start ∧
        (mkFairPriceCalculator config start).minPrices ≤ ticks.length) →
      (getFairPrice (feedTicks (mkFairPriceCalculator config start)
        (ticks ++ more)) now2).isSome = true) := by
  have hW := feedTicks_warmupMs (mkFairPriceCalculator config start) ticks
  have hS := feedTicks_startTime (mkFairPriceCalculator config start) ticks
  have hC := feedTicks_priceCount (mkFairPriceCalculator config start) ticks
  have hM := feedTicks_minPrices (mkFairPriceCalculator config start) ticks
  have hstart0 : (mkFairPriceCalculator config start).startTime = start := rfl
  have hcount0 : (mkFairPriceCalculator config start).priceCount = 0 := rfl
  have hmin1 : 1 ≤ (mkFairPriceCalculator config start).minPrices :=
    mk_minPrices_pos config start
  constructor
  · by_cases hc : ((mkFairPriceCalculator config start).warmupMs ≤ now1 - start ∧
        (mkFairPriceCalculator config start).minPrices ≤ ticks.length)
    · have hne : ticks ≠ [] := by
        intro h0
        rw [h0] at hc
        simp only [List.length_nil, Nat.le_zero] at hc
        omega
      have hema : (feedTicks (mkFairPriceCalculator config start) ticks).ema.isSome
          = true := feedTicks_ema_isSome _ _ (Or.inr hne)
      have hready : isReady (feedTicks (mkFairPriceCalculator config start) ticks)
          now1 = true := by
        unfold isReady isWarmedUp
        rw [hema, hW, hS, hC, hM, hstart0, hcount0]
        simp only [Bool.true_and, Bool.and_eq_true, decide_eq_true_eq]
        exact ⟨hc.1, by omega⟩
      simp only [getFairPrice, hready, if_true]
      constructor
      · intro h0
        rw [h0] at hema
        cases hema
      · intro hH
        exact absurd hc hH
    · have hwf : isWarmedUp (feedTicks (mkFairPriceCalculator config start) ticks)
          now1 = false := by
        have hne : ¬ (isWarmedUp (feedTicks (mkFairPriceCalculator config start)
            ticks) now1 = true) := by
          unfold isWarmedUp
          rw [hW, hS, hC, hM, hstart0, hcount0]
          simp only [Bool.and_eq_true, decide_eq_true_eq]
          intro hAB
          exact hc ⟨hAB.1, by omega⟩
        exact Bool.eq_false_iff.2 hne
      have hready : isReady (feedTicks (mkFairPriceCalculator config start) ticks)
          now1 = false := by
        unfold isReady
        rw [hwf, Bool.and_false]
      simp [getFairPrice, hready, hc]
  · intro hc
    have hne : ticks ≠ [] := by
      intro h0
      rw [h0] at hc
      simp only [List.length_nil, Nat.le_zero] at hc
      omega
    have hne2 : ticks ++ more ≠ [] := by
      intro h0
      exact hne (List.append_eq_nil.1 h0).1
    have hema2 : (feedTicks (mkFairPriceCalculator config start)
        (ticks ++ more)).ema.isSome = true :=
      feedTicks_ema_isSome _ _ (Or.inr hne2)
    have hready2 : isReady (feedTicks (mkFairPriceCalculator config start)
        (ticks ++ more)) now2 = true := by
      unfold isReady isWarmedUp
      rw [hema2, feedTicks_warmupMs, feedTicks_startTime, feedTicks_priceCount,
        feedTicks_minPrices, hstart0, hcount0]
      simp only [Bool.true_and, Bool.and_eq_true, decide_eq_true_eq,
        List.length_append]
      refine ⟨by linarith [hc.1], ?_⟩
      have := hc.2
      omega
    simp only [getFairPrice, hready2, if_true]
    exact hema2

theorem getFairPrice_readiness_witness :
    (getFairPrice (feedTicks (mkFairPriceCalculator defaultFairConfig 0)
        sampleTicks) 10000 = none ↔
      ¬ ((mkFairPriceCalculator defaultFairConfig 0).warmupMs ≤ 10000 - 0 ∧
          (mkFairPriceCalculator defaultFairConfig 0).minPrices ≤
            sampleTicks.length)) ∧
    (((mkFairPriceCalculator defaultFairConfig 0).warmupMs ≤ 10000 - 0 ∧
        (mkFairPriceCalculator defaultFairConfig 0).minPrices ≤
          sampleTicks.length) →
      (getFairPrice (feedTicks (mkFairPriceCalculator defaultFairConfig 0)
        (sampleTicks ++ [])) 10000).isSome = true) :=
  getFairPrice_readiness defaultFairConfig 0 10000 10000 sampleTicks []
    (le_refl 10000)

/-- Claim C6: with no explicit alpha configured, the smoothing factor is
fixed at construction as `2 / (windowMs / 1000 + 1)` and never changes while
ticks arrive; the first tick sets the EMA to the price directly, and each
later tick blends as `alpha * price + (1 - alpha) * ema`. -/
theorem updateEMA_spec (config : FairPriceConfig) (start : ℚ)
    (ticks : List (ℚ × ℚ)) (s : FairPriceState) (price timestamp e : ℚ)
    (halpha : config.alpha = none) :
    (feedTicks (mkFairPriceCalculator config start) ticks).alpha =
      2 / (orDefault config.windowMs 300000 / 1000 + 1) ∧
    (s.ema = none → (updateEMA s price timestamp).ema = some price) ∧
    (s.ema = some e → (updateEMA s price timestamp).ema =
      some (s.alpha * price + (1 - s.alpha) * e)) := by
  refine ⟨?_, ?_, ?_⟩
  · rw [feedTicks_alpha]
    show orDefault config.alpha _ = _
    rw [halpha]
    show (2 : ℚ) / (orDefault config.windowMs (5 * 60 * 1000) / 1000 + 1) = _
    norm_num
  · intro h0
    unfold updateEMA
    rw [h0]
  · intro h0
    unfold updateEMA
    rw [h0]

theorem updateEMA_spec_witness :
    (feedTicks (mkFairPriceCalculator windowFairConfig 0) [(4, 1)]).alpha =
      2 / (orDefault windowFairConfig.windowMs 300000 / 1000 + 1) ∧
    ((mkFairPriceCalculator windowFairConfig 0).ema = none →
      (updateEMA (mkFairPriceCalculator windowFairConfig 0) 4 1).ema = some 4) ∧
    ((mkFairPriceCalculator windowFairConfig 0).ema = some 3 →
      (updateEMA (mkFairPriceCalculator windowFairConfig 0) 4 1).ema =
        some ((mkFairPriceCalculator windowFairConfig 0).alpha * 4 +
          (1 - (mkFairPriceCalculator windowFairConfig 0).alpha) * 3)) :=
  updateEMA_spec windowFairConfig 0 [(4, 1)]
    (mkFairPriceCalculator windowFairConfig 0) 4 1 3 rfl

/-- Claim C7: rounding a bid down to the tick grid never exceeds the raw
price, and rounding an ask up never falls below it, so tick rounding can
only widen the spread. -/
theorem roundToTick_widens (config : MarketMakerConfig) (price : ℚ) :
    roundToTick config price TickDirection.down ≤ price ∧
    price ≤ roundToTick config price TickDirection.up := by
  have ht : 0 < tickSizeFor config.symbol := by
    unfold tickSizeFor
    split_ifs <;> norm_num
  constructor
  · show (⌊price / tickSizeFor config.symbol⌋ : ℚ) * tickSizeFor config.symbol
      ≤ price
    have h1 := mul_le_mul_of_nonneg_right
      (Int.floor_le (price / tickSizeFor config.symbol)) ht.le
    rwa [div_mul_cancel₀ _ (ne_of_gt ht)] at h1
  · show price ≤
      (⌈price / tickSizeFor config.symbol⌉ : ℚ) * tickSizeFor config.symbol
    have h1 := mul_le_mul_of_nonneg_right
      (Int.le_ceil (price / tickSizeFor config.symbol)) ht.le
    rwa [div_mul_cancel₀ _ (ne_of_gt ht)] at h1

/-- Claim C8: validation fails for any configuration with a non-positive
spread, order size or close threshold, or a maximum position not above the
close threshold, and succeeds when the exchange and symbol are set and all
the positivity and ordering conditions hold. -/
theorem validateConfig_spec (config : MarketMakerConfig) :
    ((config.spreadBps ≤ 0 ∨ config.orderSizeUsd ≤ 0 ∨
        config.closeThresholdUsd ≤ 0 ∨
        config.maxPositionUsd ≤ config.closeThresholdUsd) →
      validateConfig config ≠ Except.ok ()) ∧
    (config.exchange ≠ "" → config.symbol ≠ "" → 0 < config.spreadBps →
      0 < config.orderSizeUsd → 0 < config.closeThresholdUsd →
      config.closeThresholdUsd < config.maxPositionUsd →
      validateConfig config = Except.ok ()) := by
  constructor
  · intro hbad hok
    unfold validateConfig at hok
    split_ifs at hok with h1 h2 h3 h4 h5 h6
    rcases hbad with h | h | h | h
    exacts [h3 h, h4 h, h5 h, h6 h]
  · intro he hs h1 h2 h3 h4
    unfold validateConfig
    rw [if_neg he, if_neg hs, if_neg (not_le.2 h1), if_neg (not_le.2 h2),
      if_neg (not_le.2 h3), if_neg (not_le.2 h4)]

theorem validateConfig_spec_witness :
    validateConfig sampleConfig = Except.ok () ∧
    validateConfig { sampleConfig with spreadBps := 0 } ≠ Except.ok () :=
  ⟨(validateConfig_spec sampleConfig).2 (by decide) (by decide)
      (by norm_num [sampleConfig]) (by norm_num [sampleConfig])
      (by norm_num [sampleConfig]) (by norm_num [sampleConfig]),
    (validateConfig_spec { sampleConfig with spreadBps := 0 }).1
      (Or.inl (by norm_num [sampleConfig]))⟩

theorem roundSize_zero (market : Option Market) : roundSize market 0 = 0 := by
  cases market <;> simp [roundSize]

theorem gq_isCloseMode (config : MarketMakerConfig) (market : Option Market)
    (fairPrice positionNotional : ℚ) :
    (generateQuotes config market fairPrice positionNotional).isCloseMode =
      decide (|positionNotional| > config.closeThresholdUsd) := rfl

theorem gq_spreadBps (config : MarketMakerConfig) (market : Option Market)
    (fairPrice positionNotional : ℚ) :
    (generateQuotes config market fairPrice positionNotional).spreadBps =
      if decide (|positionNotional| > config.closeThresholdUsd) = true then
        config.takeProfitBps
      else config.spreadBps := rfl

theorem gq_bidSize (config : MarketMakerConfig) (market : Option Market)
    (fairPrice positionNotional : ℚ) :
    (generateQuotes config market fairPrice positionNotional).bidSize =
      if market.isSome then
        roundSize market
          (if decide (|positionNotional| > config.closeThresholdUsd) = true then
            (if positionNotional > 0 then 0 else config.orderSizeUsd / fairPrice)
          else config.orderSizeUsd / fairPrice)
      else
        (if decide (|positionNotional| > config.closeThresholdUsd) = true then
          (if positionNotional > 0 then 0 else config.orderSizeUsd / fairPrice)
        else config.orderSizeUsd / fairPrice) := rfl

theorem gq_askSize (config : MarketMakerConfig) (market : Option Market)
    (fairPrice positionNotional : ℚ) :
    (generateQuotes config market fairPrice positionNotional).askSize =
      if market.isSome then
        roundSize market
          (if decide (|positionNotional| > config.closeThresholdUsd) = true then
            (if positionNotional > 0 then config.orderSizeUsd / fairPrice else 0)
          else config.orderSizeUsd / fairPrice)
      else
        (if decide (|positionNotional| > config.closeThresholdUsd) = true then
          (if positionNotional > 0 then config.orderSizeUsd / fairPrice else 0)
        else config.orderSizeUsd / fairPrice) := rfl

/-- Claim C4 (amended): above the close threshold the quote is in close mode,
its spread comes from `takeProfitBps`, and the exposure-increasing side is
zeroed (bid for a long, ask for a short); at or below the threshold the quote
is not in close mode and uses `spreadBps`, and both sizes are positive
provided the fair price and order size are positive and either no market is
set or the base size survives floor rounding at the market's size precision. -/
theorem generateQuotes_modes (config : MarketMakerConfig) (market : Option Market)
    (fairPrice positionNotional : ℚ) :
    (config.closeThresholdUsd < |positionNotional| →
      (generateQuotes config market fairPrice positionNotional).isCloseMode =
        true ∧
      (generateQuotes config market fairPrice positionNotional).spreadBps =
        config.takeProfitBps ∧
      (0 < positionNotional →
        (generateQuotes config market fairPrice positionNotional).bidSize = 0) ∧
      (positionNotional < 0 →
        (generateQuotes config market fairPrice positionNotional).askSize = 0)) ∧
    (|positionNotional| ≤ config.closeThresholdUsd →
      (generateQuotes config market fairPrice positionNotional).isCloseMode =
        false ∧
      (generateQuotes config market fairPrice positionNotional).spreadBps =
        config.spreadBps ∧
      (0 < fairPrice → 0 < config.orderSizeUsd →
        (market = none ∨ ∃ m, market = some m ∧
          1 ≤ config.orderSizeUsd / fairPrice * 10 ^ m.sizePrecision) →
        0 < (generateQuotes config market fairPrice positionNotional).bidSize ∧
        0 < (generateQuotes config market fairPrice positionNotional).askSize)) := by
  constructor
  · intro hclose
    have hbool : decide (|positionNotional| > config.closeThresholdUsd) = true :=
      decide_eq_true hclose
    refine ⟨?_, ?_, ?_, ?_⟩
    · rw [gq_isCloseMode, hbool]
    · rw [gq_spreadBps, hbool, if_pos rfl]
    · intro hpn
      rw [gq_bidSize, hbool]
      simp [hpn, roundSize_zero]
    · intro hpn
      rw [gq_askSize, hbool]
      simp [hpn.not_lt, roundSize_zero]
  · intro hnot
    have hbool : decide (|positionNotional| > config.closeThresholdUsd) = false :=
      decide_eq_false (not_lt.2 hnot)
    refine ⟨?_, ?_, ?_⟩
    · rw [gq_isCloseMode, hbool]
    · rw [gq_spreadBps, hbool]
      simp
    · intro hf ho hm
      have hbase : 0 < config.orderSizeUsd / fairPrice := div_pos ho hf
      rcases hm with rfl | ⟨m, rfl, hm1⟩
      · rw [gq_bidSize, gq_askSize, hbool]
        simp only [Option.isSome_none, Bool.false_eq_true, if_false,
          Bool.false_eq_true]
        constructor <;> simpa using hbase
      · have hpos : 0 < roundSize (some m) (config.orderSizeUsd / fairPrice) := by
          show 0 < (⌊config.orderSizeUsd / fairPrice * 10 ^ m.sizePrecision⌋ : ℚ) /
            10 ^ m.sizePrecision
          have hfl : (1 : ℤ) ≤ ⌊config.orderSizeUsd / fairPrice *
              10 ^ m.sizePrecision⌋ := by
            rw [Int.le_floor]
            exact_mod_cast hm1
          refine div_pos ?_ (by positivity)
          exact_mod_cast lt_of_lt_of_le Int.zero_lt_one hfl
        rw [gq_bidSize, gq_askSize, hbool]
        simp only [Option.isSome_some, if_true, Bool.false_eq_true, if_false]
        constructor <;> simpa using hpos

theorem generateQuotes_sizes_counterexample :
    ¬ (∀ fairPrice positionNotional : ℚ,
        |positionNotional| ≤ sampleConfig.closeThresholdUsd →
        (generateQuotes sampleConfig (some sampleMarket) fairPrice
          positionNotional).isCloseMode = false ∧
        0 < (generateQuotes sampleConfig (some sampleMarket) fairPrice
          positionNotional).bidSize ∧
        0 < (generateQuotes sampleConfig (some sampleMarket) fairPrice
          positionNotional).askSize) := by
  intro h
  obtain ⟨-, hbid, -⟩ := h 50000 0 (by norm_num [sampleConfig])
  have hz : (generateQuotes sampleConfig (some sampleMarket) 50000 0).bidSize
      = 0 := by
    rw [gq_bidSize]
    have hb : decide (|(0 : ℚ)| > sampleConfig.closeThresholdUsd) = false := by
      norm_num [sampleConfig]
    rw [hb]
    simp only [Option.isSome_some, if_true, Bool.false_eq_true, if_false]
    show roundSize (some sampleMarket) (sampleConfig.orderSizeUsd / 50000) = 0
    show (⌊sampleConfig.orderSizeUsd / 50000 *
      10 ^ sampleMarket.sizePrecision⌋ : ℚ) / 10 ^ sampleMarket.sizePrecision = 0
    have h15 : sampleConfig.orderSizeUsd / 50000 *
        10 ^ sampleMarket.sizePrecision = 1 / 5 := by
      norm_num [sampleConfig, sampleMarket]
    rw [h15]
    have hfl : ⌊(1 / 5 : ℚ)⌋ = 0 := by
      rw [Int.floor_eq_zero_iff]
      constructor <;> norm_num
    rw [hfl]
    norm_num
  rw [hz] at hbid
  exact lt_irrefl 0 hbid

theorem generateQuotes_modes_witness :
    (generateQuotes sampleConfig none 50000 600).isCloseMode = true ∧
    (generateQuotes sampleConfig none 50000 600).bidSize = 0 ∧
    0 < (generateQuotes sampleConfig none 50000 0).bidSize := by
  refine ⟨?_, ?_, ?_⟩
  · exact ((generateQuotes_modes sampleConfig none 50000 600).1
      (by norm_num [sampleConfig])).1
  · exact ((generateQuotes_modes sampleConfig none 50000 600).1
      (by norm_num [sampleConfig])).2.2.1 (by norm_num)
  · exact (((generateQuotes_modes sampleConfig none 50000 0).2
      (by norm_num [sampleConfig])).2.2 (by norm_num)
      (by norm_num [sampleConfig]) (Or.inl rfl)).1

/-- Claim C10: `quoteToOrders` emits a buy order exactly when the quoted bid
size is positive and a sell order exactly when the quoted ask size is
positive, and every emitted order is post-only and never reduce-only,
whatever the quote's close-mode flag. -/
theorem quoteToOrders_spec (config : MarketMakerConfig) (market : Option Market)
    (quote : Quote) :
    ((∃ o ∈ quoteToOrders config market quote, o.side = Side.buy) ↔
      0 < quote.bidSize) ∧
    ((∃ o ∈ quoteToOrders config market quote, o.side = Side.sell) ↔
      0 < quote.askSize) ∧
    (∀ o ∈ quoteToOrders config market quote,
      o.postOnly = true ∧ o.reduceOnly = false) := by
  unfold quoteToOrders
  by_cases hb : quote.bidSize > 0 <;> by_cases ha : quote.askSize > 0 <;>
    simp [hb, ha]

theorem quoteToOrders_spec_witness :
    ((∃ o ∈ quoteToOrders sampleConfig none sampleQuote, o.side = Side.buy) ↔
      0 < sampleQuote.bidSize) ∧
    ((∃ o ∈ quoteToOrders sampleConfig none sampleQuote, o.side = Side.sell) ↔
      0 < sampleQuote.askSize) ∧
    (∀ o ∈ quoteToOrders sampleConfig none sampleQuote,
      o.postOnly = true ∧ o.reduceOnly = false) :=
  quoteToOrders_spec sampleConfig none sampleQuote

end ElPerronson
